import Mathlib

/-!
Shallow embedding of the TeamV5 job-search pipeline:
skill matching (services/match_service.py), summarization retry ladder
(services/llm_service.py), scraping/extraction and caching
(services/scrape_service.py), and the filtered-search route
(routes/job_routes.py).  Python strings are modelled as Lean `String`
(lists of code points, matching Python slicing/indexing semantics);
Python float arithmetic on the match score is modelled with `ℚ`, which
agrees with the double-precision comparisons performed by the source for
every realistically sized skill list; clock readings are modelled as `ℚ`.
-/

/-- Python `str.lower` on the ASCII alphabet handled by the matcher. -/
def pyLower (s : String) : String := String.mk (s.data.map Char.toLower)

/-- Python `str.strip` (drop leading and trailing whitespace). -/
def pyStrip (s : String) : String :=
  String.mk (((s.data.dropWhile Char.isWhitespace).reverse.dropWhile Char.isWhitespace).reverse)

/-- Python slicing `s[:n]`, by code points. -/
def pySlice (s : String) (n : ℕ) : String := String.mk (s.data.take n)

/-- Character class of the token regex in `services/match_service.py`:
ASCII letters, digits, plus sign and hash sign. -/
def isTokenChar (c : Char) : Bool := c.isAlpha || c.isDigit || c == '+' || c == '#'

/-- Accumulator-style splitter realizing `re.findall` of one-or-more
token characters: emits every maximal run of token characters. -/
def tokenizeAux : List Char → List Char → List String
  | [], acc => if acc.isEmpty then [] else [String.mk acc.reverse]
  | c :: cs, acc =>
    if isTokenChar c then
      tokenizeAux cs (c :: acc)
    else if acc.isEmpty then
      tokenizeAux cs []
    else
      String.mk acc.reverse :: tokenizeAux cs []

/-- `tokenize` from `services/match_service.py`: maximal runs of
letters, digits, plus and hash in the lowercased text. -/
def tokenize (text : String) : List String := tokenizeAux (pyLower text).data []

/-- The per-skill normalization `skill.lower().strip()` performed by
`job_matches_skills`. -/
def cleanSkill (skill : String) : String := pyStrip (pyLower skill)

/-- Number of skills the loop of `job_matches_skills` counts as matched:
skills whose cleaned form is non-empty (the `continue` guard) and occurs
in the token set of the description. -/
def matchedCount (description : String) (skills : List String) : ℕ :=
  (skills.filter (fun skill =>
    decide (cleanSkill skill ≠ "" ∧ cleanSkill skill ∈ tokenize description))).length

/-- `job_matches_skills` from `services/match_service.py`.  The source
computes `ratio = matched / len(skills) if skills else 0` and returns
`ratio >= threshold`; an empty description returns `False` up front. -/
def job_matches_skills (description : String) (skills : List String) (threshold : ℚ) : Bool :=
  if description = "" then false
  else
    let matched := matchedCount description skills
    let score : ℚ := if skills.isEmpty then 0 else (matched : ℚ) / (skills.length : ℚ)
    decide (threshold ≤ score)

/-- Default value of the `threshold` parameter of `job_matches_skills`. -/
def defaultThreshold : ℚ := 1/4

/-- The matcher as the specification words it, for refinement
comparison only: the denominator of the score is the number of
non-empty skills after trimming, not the raw length of the skill list. -/
def job_matches_skills_specDenom (description : String) (skills : List String) (threshold : ℚ) : Bool :=
  let nonEmpty := skills.filter (fun skill => decide (cleanSkill skill ≠ ""))
  let matched := (nonEmpty.filter (fun skill => decide (cleanSkill skill ∈ tokenize description))).length
  let score : ℚ := if nonEmpty.isEmpty then 0 else (matched : ℚ) / (nonEmpty.length : ℚ)
  decide (threshold ≤ score)

/-- Python `", ".join`. -/
def joinComma : List String → String
  | [] => ""
  | [s] => s
  | s :: rest => s ++ ", " ++ joinComma rest

/-- The directive prompt of `summarize_job` in `services/llm_service.py`
up to and including the "Job Description:" header; the description is
appended right after it by the format call. -/
def promptPreamble (skills : List String) : String :=
  "Summarize the following job posting one paragraph.\n" ++
  "RULES:\n" ++
  "- DO NOT make up or guess any technologies.\n" ++
  "- ONLY use information that appears in the text.\n" ++
  "- If a section is missing, write \x27Not specified\x27.\n" ++
  "- Relate the users skills with the job posting if possible.\n" ++
  "User skills: " ++ joinComma skills ++ "\n\n" ++
  "Job Description:\n"

/-- The full text `.format(skills=..., desc=description)` produces. -/
def buildPrompt (description : String) (skills : List String) : String :=
  promptPreamble skills ++ description

/-- The prompt `summarize_job` passes to the generation call on every
tier: the source computes `desc_chunk = description[:limit]` inside the
loop but formats the prompt with `description` — the 3000-capped text —
so the same un-tiered prompt is sent at every attempt. -/
def attemptPrompt (description : String) (skills : List String) : String :=
  buildPrompt (pySlice description 3000) skills

/-- Outcome of one `llm.create_chat_completion` call (plus the indexing
into `resp["choices"][0]`): either the try-block raised, or it produced
a first choice whose `message.content` and `text` fields are modelled
as optional strings. -/
inductive GenOutcome
  | raiseExc : GenOutcome
  | okResp : Option String → Option String → GenOutcome
deriving DecidableEq

/-- Python `opt or dflt` on an optional string: an absent or empty
(falsy) string falls through to the default. -/
def orElseText (o : Option String) (dflt : String) : String :=
  match o with
  | some s => if s = "" then dflt else s
  | none => dflt

/-- Text returned on a successful tier:
`message.content or text or "AI summary unavailable."`. -/
def respText (content text : Option String) : String :=
  orElseText content (orElseText text "AI summary unavailable.")

/-- The character budgets of the shrinking-context retry ladder. -/
def LIMITS : List ℕ := [2500, 1800, 1200, 800, 500]

/-- Fallback string returned when every tier fails. -/
def fallbackMsg : String := "AI summary could not be generated due to context window limits."

/-- The retry ladder of `summarize_job`: one generation attempt per
entry of `LIMITS`, indexed by attempt number; the first non-raising
attempt returns its extracted text.  Returns the result string paired
with the number of generation attempts made. -/
def runLadder (gen : String → ℕ → GenOutcome) (prompt : String) : List ℕ → ℕ → String × ℕ
  | [], _ => (fallbackMsg, 0)
  | _limit :: rest, i =>
    match gen prompt i with
    | .raiseExc =>
      let r := runLadder gen prompt rest (i + 1)
      (r.1, r.2 + 1)
    | .okResp content text => (respText content text, 1)

/-- `summarize_job` from `services/llm_service.py`, with the generation
capability abstracted as `gen` (prompt and attempt index to outcome).
An empty (falsy) description short-circuits; otherwise the description
is capped at 3000 characters and the ladder runs over `LIMITS`. -/
def summarize_job (description : String) (skills : List String)
    (gen : String → ℕ → GenOutcome) : String × ℕ :=
  if description = "" then ("No description available.", 0)
  else runLadder gen (attemptPrompt description skills) LIMITS 0

/-- A 3000-character description (the hard cap), used to exhibit the
missing tier truncation. -/
def bigD : String := String.mk (List.replicate 3000 'a')

/-- One in-memory cache namespace of `services/scrape_service.py`
(`JOB_CACHE`, `SUMMARY_CACHE`, `DETAIL_CACHE`): entries map a string key
to a `(storedAt, value)` pair.  The Python dict is modelled as an
association list in which a later `put` shadows earlier entries for the
same key, which is observationally the dict's overwrite. -/
abbrev Cache (V : Type) : Type := List (String × ℚ × V)

/-- Dict lookup `CACHE.get(key)`: first (most recent) entry wins. -/
def cacheLookup {V : Type} : Cache V → String → Option (ℚ × V)
  | [], _ => none
  | (k2, e) :: rest, k => if k2 = k then some e else cacheLookup rest k

/-- `CACHE_TTL = 60` seconds. -/
def CACHE_TTL : ℚ := 60

/-- The read pattern `cached = CACHE.get(key); if cached and
(time.time() - cached[0] < CACHE_TTL): return cached[1]` — returns the
value only when an entry exists and is younger than the TTL, and never
mutates the store (second component). -/
def cacheGet {V : Type} (c : Cache V) (k : String) (now ttl : ℚ) : Option V × Cache V :=
  match cacheLookup c k with
  | none => (none, c)
  | some (stored, v) => if now - stored < ttl then (some v, c) else (none, c)

/-- The write pattern `CACHE[key] = (time.time(), value)`. -/
def cachePut {V : Type} (c : Cache V) (k : String) (now : ℚ) (v : V) : Cache V :=
  (k, now, v) :: c

/-- The search-results cache key
`f"linkedin|{keyword}|{location}|{limit}"`. -/
def searchCacheKey (keyword location : String) (limit : ℕ) : String :=
  "linkedin|" ++ keyword ++ "|" ++ location ++ "|" ++ toString limit

/-- The anchor element resolved for a job card (the first of the three
link selectors that matches): its `href` attribute, possibly absent,
and its text. -/
structure Anchor where
  href : Option String
  text : String
deriving DecidableEq

/-- One candidate record (an `li` / `div.base-card` fragment) of the
search-results markup, with each cascading field resolution abstracted
as the optional text the first successful selector yields:
`anchor` for the link selectors, `titleEl` for the title selectors,
`companyEl` and `locEl` likewise; `summaryOutcome` is the short
description the per-card detail sub-fetch ends up with, and
`parseError` marks a card whose processing raises (the record is then
logged and skipped). -/
structure Card where
  anchor : Option Anchor
  titleEl : Option String
  companyEl : Option String
  locEl : Option String
  summaryOutcome : Option String
  parseError : Bool
deriving DecidableEq

/-- The record appended to `jobs` by `fetch_linkedin_jobs`. -/
structure JobSummary where
  title : String
  company : Option String
  location : Option String
  url : String
  summary : Option String
deriving DecidableEq

/-- Python `s.startswith(p)`. -/
def strStartsWith (s p : String) : Bool := p.data.isPrefixOf s.data

/-- The `url_abs` computation: an href keeps itself when truthy and
starting with "http", is prefixed with the LinkedIn host when truthy
and host-relative, and resolves to nothing otherwise. -/
def resolveUrl : Option String → Option String
  | none => none
  | some h =>
    if h = "" then none
    else if strStartsWith h "http" then some h
    else some ("https://www.linkedin.com" ++ h)

/-- The `title` computation: the title element's text, else the anchor
text, else nothing. -/
def cardTitle (c : Card) : Option String :=
  match c.titleEl with
  | some t => some t
  | none => Option.map Anchor.text c.anchor

/-- What one card contributes: `Only add if title + URL exist` — a
summary is produced when the title resolves to truthy (non-empty) text
and the URL resolves. -/
def extractCard (c : Card) : Option JobSummary :=
  match cardTitle c, resolveUrl (Option.bind c.anchor Anchor.href) with
  | some t, some u =>
    if t = "" then none
    else some ⟨t, c.companyEl, c.locEl, u, c.summaryOutcome⟩
  | _, _ => none

/-- The card loop of `fetch_linkedin_jobs`: a raising card is skipped;
otherwise the card's record (if complete) is appended and the loop
breaks as soon as `len(jobs) >= limit` — the check runs after every
non-raising card.  Returns the jobs (in order) and the still
unprocessed cards. -/
def fetchLoop : List Card → ℕ → List JobSummary → List JobSummary × List Card
  | [], _, acc => (acc.reverse, [])
  | card :: rest, limit, acc =>
    if card.parseError then fetchLoop rest limit acc
    else
      match extractCard card with
      | some j =>
        if limit ≤ acc.length + 1 then ((j :: acc).reverse, rest)
        else fetchLoop rest limit (j :: acc)
      | none =>
        if limit ≤ acc.length then (acc.reverse, rest)
        else fetchLoop rest limit acc

/-- The complete records of a card list, in order: non-raising cards
whose title and URL both resolve. -/
def completeRecords (cards : List Card) : List JobSummary :=
  (cards.filter (fun c => !c.parseError)).filterMap extractCard

/-- The record `fetch_job_details` builds on a 200 response. -/
structure JobDetail where
  title : Option String
  company : Option String
  location : Option String
  url : String
  description : Option String
deriving DecidableEq

/-- Result of `fetch_job_details`: an error dict (transport failure or
non-200 status) or the detail record. -/
inductive DetailResult
  | err : String → DetailResult
  | ok : JobDetail → DetailResult
deriving DecidableEq

/-- The route's `details.get("description", "") or ""`: an error dict
has no description key, and an absent or empty description is replaced
by the empty string. -/
def fullDescOf : DetailResult → String
  | .err _ => ""
  | .ok d =>
    match d.description with
    | none => ""
    | some s => s

/-- What `fetch_linkedin_jobs` hands back to the route:
`{"error": ..., "jobs": ...}`. -/
structure SearchResult where
  error : Option String
  jobs : List JobSummary
deriving DecidableEq

/-- Response of the `search_user` route: the raw error-bearing dict
(when `raw["error"]` is truthy) or the filtered response with
`jobs_found`, `jobs_filtered` and the kept jobs. -/
inductive SearchUserResponse
  | failed : String → List JobSummary → SearchUserResponse
  | ok : ℕ → ℕ → List JobSummary → SearchUserResponse
deriving DecidableEq

/-- Python truthiness of `raw["error"]`: `None` and `""` are falsy. -/
def errTruthy : Option String → Bool
  | none => false
  | some e => decide (e ≠ "")

/-- `search_user` from `routes/job_routes.py`, with the search result
and the per-URL detail fetch abstracted as inputs: on a truthy error
the raw dict is returned unchanged; otherwise each job's full detail is
fetched and the job is kept exactly when the skill matcher accepts its
full description at the default threshold. -/
def search_user (raw : SearchResult) (detailOf : String → DetailResult)
    (skills : List String) : SearchUserResponse :=
  if errTruthy raw.error then
    SearchUserResponse.failed (raw.error.getD "") raw.jobs
  else
    let filtered := raw.jobs.filter (fun job =>
      job_matches_skills (fullDescOf (detailOf job.url)) skills defaultThreshold)
    SearchUserResponse.ok raw.jobs.length filtered.length filtered

/-- A concrete complete card, for witnesses. -/
def c0 : Card :=
  ⟨some ⟨some "/jobs/view/1", "anchor text"⟩, some "Software Dev", some "Acme", none, none, false⟩

/-- The summary `c0` extracts to. -/
def j0 : JobSummary :=
  ⟨"Software Dev", some "Acme", none, "https://www.linkedin.com/jobs/view/1", none⟩

/-- A second concrete summary, whose detail fetch will fail. -/
def jB : JobSummary :=
  ⟨"Rust Eng", none, none, "https://www.linkedin.com/jobs/view/2", none⟩

/-- A concrete detail fetcher: full description for `j0`, transport
error for every other URL. -/
def detail0 : String → DetailResult := fun u =>
  if u = "https://www.linkedin.com/jobs/view/1" then
    DetailResult.ok ⟨none, none, none, u, some "We need a java developer"⟩
  else DetailResult.err "boom"

/-- A concrete successful search result with two jobs. -/
def raw0 : SearchResult := ⟨none, [j0, jB]⟩

/-- A concrete successful search result holding only the job whose
detail fetch errors. -/
def raw0b : SearchResult := ⟨none, [jB]⟩

example : tokenize "We use JavaScript" = ["we", "use", "javascript"] := by decide
example : tokenize "C++ and C# devs" = ["c++", "and", "c#", "devs"] := by decide

/-- Every token emitted by the splitter is a non-empty string: a token
is only flushed out of a non-empty accumulator. -/
lemma tokenizeAux_ne_empty : ∀ (cs acc : List Char), ∀ t ∈ tokenizeAux cs acc, t ≠ "" := by
  intro cs
  induction cs with
  | nil =>
    intro acc t ht
    by_cases h : acc.isEmpty
    · simp [tokenizeAux, h] at ht
    · simp [tokenizeAux, h] at ht
      subst ht
      simp only [ne_eq, String.ext_iff]
      simpa using (List.isEmpty_eq_false.mp (by simpa using h))
  | cons c cs ih =>
    intro acc t ht
    simp only [tokenizeAux] at ht
    by_cases hc : isTokenChar c
    · rw [if_pos hc] at ht
      exact ih _ t ht
    · rw [if_neg hc] at ht
      by_cases h : acc.isEmpty
      · rw [if_pos h] at ht
        exact ih _ t ht
      · rw [if_neg h] at ht
        rcases List.mem_cons.mp ht with h1 | h2
        · subst h1
          simp only [ne_eq, String.ext_iff]
          simpa using (List.isEmpty_eq_false.mp (by simpa using h))
        · exact ih _ t h2

/-- Every token of a description is non-empty. -/
lemma tokenize_ne_empty (d : String) : ∀ t ∈ tokenize d, t ≠ "" := by
  intro t ht
  exact tokenizeAux_ne_empty _ _ t ht

/-- The matcher characterized: with `ℚ`-valued score, a match is
exactly a non-empty description whose matched-skill count divided by
the raw skill-list length reaches the threshold (`ℚ` division by zero
is zero, which coincides with the `ratio = 0` branch of the source for
the empty skill list). -/
lemma job_matches_iff (d : String) (skills : List String) (θ : ℚ) :
    job_matches_skills d skills θ = true
      ↔ (d ≠ "" ∧ θ ≤ (matchedCount d skills : ℚ) / (skills.length : ℚ)) := by
  unfold job_matches_skills
  by_cases hd : d = ""
  · simp [hd]
  · simp only [if_neg hd, decide_eq_true_eq, ne_eq, hd, not_false_iff, true_and]
    by_cases hs : skills.isEmpty
    · have hnil : skills = [] := List.isEmpty_iff.mp hs
      subst hnil
      simp [matchedCount]
    · simp [hs]

/-- Concrete-evaluation helper: a match holds once the score bound is
established. -/
lemma job_matches_true_of (d : String) (skills : List String) (θ : ℚ)
    (hd : d ≠ "") (h : θ ≤ (matchedCount d skills : ℚ) / (skills.length : ℚ)) :
    job_matches_skills d skills θ = true :=
  (job_matches_iff d skills θ).mpr ⟨hd, h⟩

/-- Concrete-evaluation helper: failing the score bound refutes the match. -/
lemma job_matches_false_of (d : String) (skills : List String) (θ : ℚ)
    (h : ¬ θ ≤ (matchedCount d skills : ℚ) / (skills.length : ℚ)) :
    job_matches_skills d skills θ = false := by
  cases hb : job_matches_skills d skills θ
  · rfl
  · exact absurd ((job_matches_iff d skills θ).mp hb).2 h

/-- C3: a skill is counted as matched only by exact membership of its
case-folded, trimmed form in the set of description tokens (maximal
runs of ASCII letters, digits, plus, hash, case-folded) — never by
substring containment; in particular "java" matches the token list of
"We need a Java developer" but not that of "We use JavaScript", and
"rust" does not match "We are trusted". -/
theorem token_exact_matching :
    (∀ (d : String) (skills : List String),
        matchedCount d skills
          = (skills.filter (fun sk => decide (cleanSkill sk ∈ tokenize d))).length)
    ∧ job_matches_skills "We need a Java developer" ["java"] defaultThreshold = true
    ∧ job_matches_skills "We use JavaScript" ["java"] defaultThreshold = false
    ∧ job_matches_skills "We are trusted" ["rust"] defaultThreshold = false := by
  refine ⟨?_, ?_, ?_, ?_⟩
  · intro d skills
    unfold matchedCount
    congr 1
    apply List.filter_congr
    intro sk _
    by_cases h : cleanSkill sk ∈ tokenize d
    · simp [h, tokenize_ne_empty d _ h]
    · simp [h]
  · apply job_matches_true_of
    · decide
    · have h1 : matchedCount "We need a Java developer" ["java"] = 1 := by decide
      rw [h1]
      norm_num [defaultThreshold]
  · apply job_matches_false_of
    have h1 : matchedCount "We use JavaScript" ["java"] = 0 := by decide
    rw [h1]
    norm_num [defaultThreshold]
  · apply job_matches_false_of
    have h1 : matchedCount "We are trusted" ["rust"] = 0 := by decide
    rw [h1]
    norm_num [defaultThreshold]

/-- C2 counterexample: with one matching skill and four blank entries,
the source divides by the raw skill-list length (5), scoring 1/5 which
is below the 0.25 threshold, while the ratio the claim words (denominator
= number of non-empty skills = 1) would reach 1 and match. -/
theorem match_ratio_denominator_counterexample :
    job_matches_skills "java" ["java", "", "", "", ""] defaultThreshold = false
    ∧ job_matches_skills_specDenom "java" ["java", "", "", "", ""] defaultThreshold = true := by
  constructor
  · apply job_matches_false_of
    have h1 : matchedCount "java" ["java", "", "", "", ""] = 1 := by decide
    rw [h1]
    norm_num [defaultThreshold]
  · have h1 : (["java", "", "", "", ""].filter fun sk => decide (cleanSkill sk ≠ "")) = ["java"] := by
      decide
    have h2 : (["java"].filter fun sk => decide (cleanSkill sk ∈ tokenize "java")) = ["java"] := by
      decide
    simp only [job_matches_skills_specDenom, h1, h2]
    norm_num [defaultThreshold]

/-- C2 (amended): the matcher returns true iff the number of exactly
matched skills divided by the TOTAL length of the skill list (blank
entries included in the denominator, though they can never match)
reaches the threshold, boundary inclusive; an empty skill list scores 0
and never matches at the default threshold. -/
theorem match_ratio_total_denominator (d : String) (skills : List String) (θ : ℚ) :
    (job_matches_skills d skills θ = true
      ↔ (d ≠ "" ∧ θ ≤ (matchedCount d skills : ℚ) / (skills.length : ℚ)))
    ∧ job_matches_skills d [] defaultThreshold = false := by
  refine ⟨job_matches_iff d skills θ, ?_⟩
  cases hb : job_matches_skills d [] defaultThreshold
  · rfl
  · exfalso
    have h2 := ((job_matches_iff d [] defaultThreshold).mp hb).2
    norm_num [matchedCount, defaultThreshold] at h2

/-- C1 (code bug evidence): on a 3000-character description the prompt
built for the generation call is the preamble followed by the ENTIRE
3000-capped description — `desc_chunk` is never interpolated — so the
first attempt already exceeds its 2500-character budget; a generator
that raises exactly on this un-truncated prompt (and would succeed on
any other prompt) drives all five tiers to failure. -/
theorem summarizer_prompt_untruncated :
    attemptPrompt bigD [] = promptPreamble [] ++ bigD
    ∧ bigD.length = 3000
    ∧ 2500 < bigD.length
    ∧ summarize_job bigD []
        (fun p _ => if p = promptPreamble [] ++ bigD then GenOutcome.raiseExc
          else GenOutcome.okResp (some "summary of a truncated prompt") none)
      = (fallbackMsg, 5) := by
  have hcap : pySlice bigD 3000 = bigD := by
    show String.mk ((List.replicate 3000 'a').take 3000) = bigD
    rw [List.take_replicate, min_self]
    rfl
  have h1 : attemptPrompt bigD [] = promptPreamble [] ++ bigD := by
    rw [attemptPrompt, buildPrompt, hcap]
  have hne : bigD ≠ "" := by decide
  have hlen : bigD.length = 3000 := by
    show (List.replicate 3000 'a').length = 3000
    rw [List.length_replicate]
  refine ⟨h1, hlen, ?_, ?_⟩
  · rw [hlen]
    norm_num
  · unfold summarize_job
    rw [if_neg hne, h1]
    simp [runLadder, LIMITS]

set_option maxRecDepth 8000 in
/-- C7: the summarizer never raises and always yields a string — the
first tier whose generation call does not raise ends the ladder with
that tier's extracted text after exactly that many attempts, and if all
five tiers raise the result is the fixed fallback string after five
attempts. -/
theorem summarizer_degradation (d : String) (skills : List String)
    (gen : String → ℕ → GenOutcome) (hd : d ≠ "") :
    (∀ (i : ℕ) (content text : Option String), i < 5 →
        (∀ j, j < i → gen (attemptPrompt d skills) j = GenOutcome.raiseExc) →
        gen (attemptPrompt d skills) i = GenOutcome.okResp content text →
        summarize_job d skills gen = (respText content text, i + 1))
    ∧ ((∀ i, i < 5 → gen (attemptPrompt d skills) i = GenOutcome.raiseExc) →
        summarize_job d skills gen = (fallbackMsg, 5)) := by
  constructor
  · intro i content text hi hfail hsucc
    interval_cases i
    · simp [summarize_job, hd, runLadder, LIMITS, hsucc]
    · have g0 := hfail 0 (by norm_num)
      simp [summarize_job, hd, runLadder, LIMITS, g0, hsucc]
    · have g0 := hfail 0 (by norm_num)
      have g1 := hfail 1 (by norm_num)
      simp [summarize_job, hd, runLadder, LIMITS, g0, g1, hsucc]
    · have g0 := hfail 0 (by norm_num)
      have g1 := hfail 1 (by norm_num)
      have g2 := hfail 2 (by norm_num)
      simp [summarize_job, hd, runLadder, LIMITS, g0, g1, g2, hsucc]
    · have g0 := hfail 0 (by norm_num)
      have g1 := hfail 1 (by norm_num)
      have g2 := hfail 2 (by norm_num)
      have g3 := hfail 3 (by norm_num)
      simp [summarize_job, hd, runLadder, LIMITS, g0, g1, g2, g3, hsucc]
  · intro hfail
    have g0 := hfail 0 (by norm_num)
    have g1 := hfail 1 (by norm_num)
    have g2 := hfail 2 (by norm_num)
    have g3 := hfail 3 (by norm_num)
    have g4 := hfail 4 (by norm_num)
    simp [summarize_job, hd, runLadder, LIMITS, g0, g1, g2, g3, g4]

/-- C7 witness: a non-empty description with an always-raising
generator yields the fallback string after all five attempts. -/
theorem summarizer_degradation_witness :
    ("x" : String) ≠ ""
    ∧ summarize_job "x" [] (fun _ _ => GenOutcome.raiseExc) = (fallbackMsg, 5) := by
  refine ⟨by decide, ?_⟩
  exact (summarizer_degradation "x" [] (fun _ _ => GenOutcome.raiseExc) (by decide)).2
    (fun i _ => rfl)

/-- C4: a cache read is absent iff no entry exists for the key or the
entry's age (now minus storedAt) is at least the TTL, a read never
mutates the store (stale entries in particular are not deleted), and a
put unconditionally stores `(now, value)` so that a subsequent lookup
of that key sees the new pair, shadowing any prior entry. -/
theorem cache_get_put_contract {V : Type} (c : Cache V) (k : String) (now ttl : ℚ) :
    ((cacheGet c k now ttl).1 = none
      ↔ (cacheLookup c k = none ∨ ∃ s v, cacheLookup c k = some (s, v) ∧ ttl ≤ now - s))
    ∧ (cacheGet c k now ttl).2 = c
    ∧ (∀ (v : V) (t2 : ℚ), cacheLookup (cachePut c k t2 v) k = some (t2, v)) := by
  refine ⟨?_, ?_, ?_⟩
  · unfold cacheGet
    cases hl : cacheLookup c k with
    | none => simp
    | some p =>
      obtain ⟨s, v⟩ := p
      dsimp only
      by_cases ht : now - s < ttl
      · rw [if_pos ht]
        simp [not_le.mpr ht]
      · rw [if_neg ht]
        simp only [true_iff]
        exact Or.inr ⟨s, v, rfl, not_lt.mp ht⟩
  · unfold cacheGet
    cases hl : cacheLookup c k with
    | none => rfl
    | some p =>
      obtain ⟨s, v⟩ := p
      dsimp only
      by_cases ht : now - s < ttl
      · rw [if_pos ht]
      · rw [if_neg ht]
  · intro v t2
    simp [cachePut, cacheLookup]

/-- C9: the delimited cache key is not injective — keyword "a|b" with
location "c" and keyword "a" with location "b|c" (distinct queries)
render the same key, so a fresh entry stored under the first query is
served for the second. -/
theorem cache_key_collision :
    searchCacheKey "a|b" "c" 5 = searchCacheKey "a" "b|c" 5
    ∧ ¬(("a|b" : String) = "a" ∧ ("c" : String) = "b|c")
    ∧ (∀ (res : SearchResult) (store : Cache SearchResult),
        (cacheGet (cachePut store (searchCacheKey "a|b" "c" 5) 0 res)
            (searchCacheKey "a" "b|c" 5) 1 CACHE_TTL).1 = some res) := by
  refine ⟨by decide, by decide, ?_⟩
  intro res store
  have hk : searchCacheKey "a" "b|c" 5 = searchCacheKey "a|b" "c" 5 := by decide
  rw [hk]
  show (cacheGet ((searchCacheKey "a|b" "c" 5, 0, res) :: store)
      (searchCacheKey "a|b" "c" 5) 1 CACHE_TTL).1 = some res
  unfold cacheGet
  rw [show cacheLookup ((searchCacheKey "a|b" "c" 5, 0, res) :: store)
      (searchCacheKey "a|b" "c" 5) = some (0, res) from by simp [cacheLookup]]
  dsimp only
  rw [if_pos (by norm_num [CACHE_TTL] : (1 : ℚ) - 0 < CACHE_TTL)]

/-- A raising card contributes no complete record. -/
lemma completeRecords_cons_err (card : Card) (rest : List Card)
    (h : card.parseError = true) :
    completeRecords (card :: rest) = completeRecords rest := by
  simp [completeRecords, List.filter_cons, h]

/-- A non-raising card without a complete record contributes nothing. -/
lemma completeRecords_cons_none (card : Card) (rest : List Card)
    (hp : card.parseError = false) (he : extractCard card = none) :
    completeRecords (card :: rest) = completeRecords rest := by
  simp [completeRecords, List.filter_cons, hp, List.filterMap_cons, he]

/-- A non-raising card with a complete record contributes it in front. -/
lemma completeRecords_cons_some (card : Card) (rest : List Card) (j : JobSummary)
    (hp : card.parseError = false) (he : extractCard card = some j) :
    completeRecords (card :: rest) = j :: completeRecords rest := by
  simp [completeRecords, List.filter_cons, hp, List.filterMap_cons, he]

/-- The card loop, started below the limit, emits the accumulated jobs
followed by the first `limit - acc.length` complete records of the
remaining cards, in order. -/
lemma fetchLoop_take (limit : ℕ) :
    ∀ (cards : List Card) (acc : List JobSummary), acc.length < limit →
      (fetchLoop cards limit acc).1
        = acc.reverse ++ (completeRecords cards).take (limit - acc.length) := by
  intro cards
  induction cards with
  | nil =>
    intro acc h
    simp [fetchLoop, completeRecords]
  | cons card rest ih =>
    intro acc h
    by_cases hp : card.parseError = true
    · rw [show fetchLoop (card :: rest) limit acc = fetchLoop rest limit acc from by
        simp [fetchLoop, hp]]
      rw [ih acc h, completeRecords_cons_err card rest hp]
    · have hp2 : card.parseError = false := by
        simpa using hp
      cases he : extractCard card with
      | none =>
        have hnle : ¬ limit ≤ acc.length := Nat.not_le.mpr h
        rw [show fetchLoop (card :: rest) limit acc = fetchLoop rest limit acc from by
          simp [fetchLoop, hp2, he, hnle]]
        rw [ih acc h, completeRecords_cons_none card rest hp2 he]
      | some j =>
        by_cases hl : limit ≤ acc.length + 1
        · rw [show fetchLoop (card :: rest) limit acc = ((j :: acc).reverse, rest) from by
            simp [fetchLoop, hp2, he, hl]]
          rw [completeRecords_cons_some card rest j hp2 he]
          have hlim : limit - acc.length = 1 := by omega
          rw [hlim]
          simp
        · have hlt : (j :: acc).length < limit := by
            simp only [List.length_cons]
            omega
          rw [show fetchLoop (card :: rest) limit acc = fetchLoop rest limit (j :: acc) from by
            simp [fetchLoop, hp2, he, hl]]
          rw [ih (j :: acc) hlt, completeRecords_cons_some card rest j hp2 he]
          have harith : limit - acc.length = (limit - (acc.length + 1)) + 1 := by omega
          rw [harith, List.take_succ_cons]
          simp [List.reverse_cons, List.append_assoc]

/-- If more complete records remain than the loop still needs, the loop
breaks with cards left unprocessed. -/
lemma fetchLoop_rest_ne (limit : ℕ) :
    ∀ (cards : List Card) (acc : List JobSummary), acc.length < limit →
      limit - acc.length < (completeRecords cards).length →
      (fetchLoop cards limit acc).2 ≠ [] := by
  intro cards
  induction cards with
  | nil =>
    intro acc h hlt
    simp [completeRecords] at hlt
  | cons card rest ih =>
    intro acc h hlt
    by_cases hp : card.parseError = true
    · rw [completeRecords_cons_err card rest hp] at hlt
      rw [show fetchLoop (card :: rest) limit acc = fetchLoop rest limit acc from by
        simp [fetchLoop, hp]]
      exact ih acc h hlt
    · have hp2 : card.parseError = false := by
        simpa using hp
      cases he : extractCard card with
      | none =>
        rw [completeRecords_cons_none card rest hp2 he] at hlt
        have hnle : ¬ limit ≤ acc.length := Nat.not_le.mpr h
        rw [show fetchLoop (card :: rest) limit acc = fetchLoop rest limit acc from by
          simp [fetchLoop, hp2, he, hnle]]
        exact ih acc h hlt
      | some j =>
        rw [completeRecords_cons_some card rest j hp2 he] at hlt
        by_cases hl : limit ≤ acc.length + 1
        · rw [show fetchLoop (card :: rest) limit acc = ((j :: acc).reverse, rest) from by
            simp [fetchLoop, hp2, he, hl]]
          intro hrest
          subst hrest
          simp only [completeRecords, List.filter_nil, List.filterMap_nil,
            List.length_cons, List.length_nil] at hlt
          omega
        · have hlt2 : (j :: acc).length < limit := by
            simp only [List.length_cons]
            omega
          rw [show fetchLoop (card :: rest) limit acc = fetchLoop rest limit (j :: acc) from by
            simp [fetchLoop, hp2, he, hl]]
          apply ih (j :: acc) hlt2
          simp only [List.length_cons] at hlt ⊢
          omega

/-- C5: whenever the markup yields at least `limit ≥ 1` complete
candidate records, the card loop returns exactly the first `limit`
complete records in their original order, and if strictly more complete
candidates exist the loop stops with fragments still unprocessed. -/
theorem limit_enforcement (cards : List Card) (limit : ℕ)
    (h1 : 1 ≤ limit) (h2 : limit ≤ (completeRecords cards).length) :
    (fetchLoop cards limit []).1 = (completeRecords cards).take limit
    ∧ ((fetchLoop cards limit []).1).length = limit
    ∧ (limit < (completeRecords cards).length → (fetchLoop cards limit []).2 ≠ []) := by
  have hmain := fetchLoop_take limit cards [] (by simpa using h1)
  simp only [List.length_nil, Nat.sub_zero, List.reverse_nil, List.nil_append] at hmain
  refine ⟨hmain, ?_, ?_⟩
  · rw [hmain, List.length_take]
    omega
  · intro h3
    apply fetchLoop_rest_ne limit cards []
    · simpa using h1
    · simpa using h3

/-- C5 witness: two complete cards with `limit = 1` yield exactly the
first record and stop with the second card unprocessed. -/
theorem limit_enforcement_witness :
    1 ≤ 1 ∧ 1 ≤ (completeRecords [c0, c0]).length
    ∧ (fetchLoop [c0, c0] 1 []).1 = (completeRecords [c0, c0]).take 1
    ∧ (fetchLoop [c0, c0] 1 []).2 ≠ [] :=
  ⟨le_refl 1, by decide, (limit_enforcement [c0, c0] 1 (le_refl 1) (by decide)).1,
    (limit_enforcement [c0, c0] 1 (le_refl 1) (by decide)).2.2 (by decide)⟩

/-- Every job the card loop emits beyond its accumulator comes from the
complete record of some processed card. -/
lemma fetchLoop_mem (limit : ℕ) :
    ∀ (cards : List Card) (acc : List JobSummary) (j : JobSummary),
      j ∈ (fetchLoop cards limit acc).1 →
      j ∈ acc ∨ ∃ c ∈ cards, extractCard c = some j := by
  intro cards
  induction cards with
  | nil =>
    intro acc j hj
    simp only [fetchLoop, List.mem_reverse] at hj
    exact Or.inl hj
  | cons card rest ih =>
    intro acc j hj
    by_cases hp : card.parseError = true
    · rw [show fetchLoop (card :: rest) limit acc = fetchLoop rest limit acc from by
        simp [fetchLoop, hp]] at hj
      rcases ih acc j hj with h | ⟨c, hc, hce⟩
      · exact Or.inl h
      · exact Or.inr ⟨c, List.mem_cons_of_mem _ hc, hce⟩
    · have hp2 : card.parseError = false := by
        simpa using hp
      cases he : extractCard card with
      | none =>
        by_cases hl : limit ≤ acc.length
        · rw [show fetchLoop (card :: rest) limit acc = (acc.reverse, rest) from by
            simp [fetchLoop, hp2, he, hl]] at hj
          simp only [List.mem_reverse] at hj
          exact Or.inl hj
        · rw [show fetchLoop (card :: rest) limit acc = fetchLoop rest limit acc from by
            simp [fetchLoop, hp2, he, hl]] at hj
          rcases ih acc j hj with h | ⟨c, hc, hce⟩
          · exact Or.inl h
          · exact Or.inr ⟨c, List.mem_cons_of_mem _ hc, hce⟩
      | some j2 =>
        by_cases hl : limit ≤ acc.length + 1
        · rw [show fetchLoop (card :: rest) limit acc = ((j2 :: acc).reverse, rest) from by
            simp [fetchLoop, hp2, he, hl]] at hj
          simp only [List.mem_reverse, List.mem_cons] at hj
          rcases hj with h | h
          · exact Or.inr ⟨card, List.mem_cons_self _ _, by rw [he, h]⟩
          · exact Or.inl h
        · rw [show fetchLoop (card :: rest) limit acc = fetchLoop rest limit (j2 :: acc) from by
            simp [fetchLoop, hp2, he, hl]] at hj
          rcases ih (j2 :: acc) j hj with h | ⟨c, hc, hce⟩
          · rcases List.mem_cons.mp h with h1 | h2
            · exact Or.inr ⟨card, List.mem_cons_self _ _, by rw [he, h1]⟩
            · exact Or.inl h2
          · exact Or.inr ⟨c, List.mem_cons_of_mem _ hc, hce⟩

/-- A complete record has a truthy title and a URL that is either the
href itself (when it starts with "http") or the LinkedIn host prefixed
to a truthy host-relative href. -/
lemma extractCard_props (c : Card) (j : JobSummary) (h : extractCard c = some j) :
    j.title ≠ "" ∧ ∃ hr : String,
      (strStartsWith hr "http" = true ∧ j.url = hr)
      ∨ (hr ≠ "" ∧ strStartsWith hr "http" = false ∧ j.url = "https://www.linkedin.com" ++ hr) := by
  unfold extractCard at h
  cases ht : cardTitle c with
  | none =>
    rw [ht] at h
    exact absurd h (by simp)
  | some t =>
    rw [ht] at h
    cases hu : resolveUrl (Option.bind c.anchor Anchor.href) with
    | none =>
      rw [hu] at h
      exact absurd h (by simp)
    | some u =>
      rw [hu] at h
      dsimp only at h
      by_cases htt : t = ""
      · rw [if_pos htt] at h
        exact absurd h (by simp)
      · rw [if_neg htt] at h
        have hj : j = ⟨t, c.companyEl, c.locEl, u, c.summaryOutcome⟩ := by
          exact (Option.some.injEq _ _).mp h.symm
        subst hj
        refine ⟨htt, ?_⟩
        cases hhr : Option.bind c.anchor Anchor.href with
        | none =>
          rw [hhr] at hu
          exact absurd hu (by simp [resolveUrl])
        | some hr =>
          rw [hhr] at hu
          unfold resolveUrl at hu
          dsimp only at hu
          by_cases h0 : hr = ""
          · rw [if_pos h0] at hu
            exact absurd hu (by simp)
          · rw [if_neg h0] at hu
            by_cases hs : strStartsWith hr "http" = true
            · rw [if_pos hs] at hu
              refine ⟨hr, Or.inl ⟨hs, ?_⟩⟩
              exact ((Option.some.injEq _ _).mp hu).symm
            · have hs2 : strStartsWith hr "http" = false := by
                simpa using hs
              rw [hs2, if_neg (by simp)] at hu
              refine ⟨hr, Or.inr ⟨h0, hs2, ?_⟩⟩
              exact ((Option.some.injEq _ _).mp hu).symm

/-- C8: every emitted job summary has a non-empty title and a non-empty
URL, and that URL is either an href that already started with "http" or
the LinkedIn host prefixed to a non-empty host-relative href; records
whose title or URL fail to resolve are never emitted. -/
theorem emitted_jobs_invariant (cards : List Card) (limit : ℕ) (j : JobSummary)
    (h : j ∈ (fetchLoop cards limit []).1) :
    j.title ≠ "" ∧ j.url ≠ ""
    ∧ ∃ hr : String,
        (strStartsWith hr "http" = true ∧ j.url = hr)
        ∨ (hr ≠ "" ∧ strStartsWith hr "http" = false
            ∧ j.url = "https://www.linkedin.com" ++ hr) := by
  rcases fetchLoop_mem limit cards [] j h with h0 | ⟨c, _, he⟩
  · simp at h0
  · obtain ⟨htitle, hr, hcase⟩ := extractCard_props c j he
    refine ⟨htitle, ?_, hr, hcase⟩
    rcases hcase with ⟨hs, hu⟩ | ⟨h0, _, hu⟩
    · rw [hu]
      intro hcontra
      rw [hcontra] at hs
      exact absurd hs (by decide)
    · rw [hu]
      intro hcontra
      have hdata : ("https://www.linkedin.com" ++ hr).data = ("" : String).data := by
        rw [hcontra]
      rw [String.data_append] at hdata
      have hnil := List.append_eq_nil.mp hdata
      exact absurd hnil.1 (by decide)

/-- C8 witness: the concrete card `c0` emits `j0`, which satisfies the
title/URL invariant via the host-prefixed branch. -/
theorem emitted_jobs_invariant_witness :
    j0 ∈ (fetchLoop [c0] 1 []).1
    ∧ (j0.title ≠ "" ∧ j0.url ≠ ""
      ∧ ∃ hr : String,
          (strStartsWith hr "http" = true ∧ j0.url = hr)
          ∨ (hr ≠ "" ∧ strStartsWith hr "http" = false
              ∧ j0.url = "https://www.linkedin.com" ++ hr)) :=
  ⟨by decide, emitted_jobs_invariant [c0] 1 j0 (by decide)⟩

/-- C6: when the underlying search succeeds, `search_user` reports the
pre-filter job count, the count of jobs whose fetched full description
passes the skill matcher, and exactly those jobs in their original
search order. -/
theorem search_user_counts (raw : SearchResult) (detailOf : String → DetailResult)
    (skills : List String) (h : raw.error = none) :
    search_user raw detailOf skills
      = SearchUserResponse.ok raw.jobs.length
          (raw.jobs.filter (fun job =>
            job_matches_skills (fullDescOf (detailOf job.url)) skills defaultThreshold)).length
          (raw.jobs.filter (fun job =>
            job_matches_skills (fullDescOf (detailOf job.url)) skills defaultThreshold)) := by
  unfold search_user
  rw [h]
  rfl

/-- C6 witness: a successful search with two jobs, of which one passes
the matcher, reports found 2, filtered 1, and keeps exactly that job. -/
theorem search_user_counts_witness :
    raw0.error = none
    ∧ search_user raw0 detail0 ["java"] = SearchUserResponse.ok 2 1 [j0] := by
  refine ⟨rfl, ?_⟩
  rw [search_user_counts raw0 detail0 ["java"] rfl]
  have hA : job_matches_skills (fullDescOf (detail0 j0.url)) ["java"] defaultThreshold = true := by
    rw [show fullDescOf (detail0 j0.url) = "We need a java developer" from by decide]
    apply job_matches_true_of
    · decide
    · rw [show matchedCount "We need a java developer" ["java"] = 1 from by decide]
      norm_num [defaultThreshold]
  have hB : job_matches_skills (fullDescOf (detail0 jB.url)) ["java"] defaultThreshold = false := by
    rw [show fullDescOf (detail0 jB.url) = "" from by decide]
    rfl
  simp [raw0, List.filter_cons, hA, hB]

/-- C10: the matcher rejects the empty description outright for every
skill list and threshold, so in a filtered search any job whose detail
fetch errors or whose detail record has an absent description is
excluded from the returned jobs. -/
theorem empty_description_excluded (raw : SearchResult) (detailOf : String → DetailResult)
    (skills : List String) (job : JobSummary)
    (h : (∃ m, detailOf job.url = DetailResult.err m)
      ∨ (∃ d, detailOf job.url = DetailResult.ok d ∧ d.description = none)) :
    (∀ (sk : List String) (θ : ℚ), job_matches_skills "" sk θ = false)
    ∧ (∀ (found filt : ℕ) (jobs2 : List JobSummary),
        search_user raw detailOf skills = SearchUserResponse.ok found filt jobs2 →
        job ∉ jobs2) := by
  have hmatch : ∀ (sk : List String) (θ : ℚ), job_matches_skills "" sk θ = false := by
    intro sk θ
    rfl
  refine ⟨hmatch, ?_⟩
  intro found filt jobs2 heq
  have hdesc : fullDescOf (detailOf job.url) = "" := by
    rcases h with ⟨m, hm⟩ | ⟨d, hd, hnone⟩
    · rw [hm]
      rfl
    · rw [hd]
      simp only [fullDescOf, hnone]
  unfold search_user at heq
  by_cases herr : errTruthy raw.error = true
  · rw [if_pos herr] at heq
    exact absurd heq (by simp)
  · rw [if_neg herr] at heq
    dsimp only at heq
    have hjobs : jobs2 = raw.jobs.filter (fun jb =>
        job_matches_skills (fullDescOf (detailOf jb.url)) skills defaultThreshold) :=
      (((SearchUserResponse.ok.injEq _ _ _ _ _ _).mp heq).2.2).symm
    intro hmem
    rw [hjobs] at hmem
    have hpred := (List.mem_filter.mp hmem).2
    simp only [hdesc, hmatch] at hpred
    exact Bool.false_ne_true hpred

/-- C10 witness: the job whose detail fetch errors is excluded — with
`raw0b` containing only that job, the filtered list is empty. -/
theorem empty_description_excluded_witness :
    (∃ m, detail0 jB.url = DetailResult.err m) ∧ jB ∉ ([] : List JobSummary) := by
  have herr : detail0 jB.url = DetailResult.err "boom" := by decide
  refine ⟨⟨"boom", herr⟩, ?_⟩
  apply (empty_description_excluded raw0b detail0 ["java"] jB (Or.inl ⟨"boom", herr⟩)).2 1 0 []
  have hB : job_matches_skills (fullDescOf (detail0 jB.url)) ["java"] defaultThreshold = false := by
    rw [show fullDescOf (detail0 jB.url) = "" from by decide]
    rfl
  simp [search_user, raw0b, errTruthy, List.filter_cons, hB]
